import Mathlib

/-!
Verification development for the `encneg` / `testhandlers` Go packages
(content-encoding negotiating static file server and test-support handlers).

Go strings are embedded as `List Char` (the code only manipulates them
byte-wise on ASCII data).  Go's `http.Header` (a `map[string][]string`) is
embedded as an association list with at most one entry per key, with `Set`,
`Add` and raw-map-update (`h[k] = v`) operations.  The mutable
`http.ResponseWriter` objects are embedded as explicit state values; each
decorator (`connegResponseWriter`, `responseWithContentEncoding`) is a
structure holding its flags together with the wrapped writer's state, and
its methods are state-transformer functions translated from the Go source.
-/

namespace Encneg

abbrev Str := List Char

/-- A response header set: `map[string][]string`, embedded as an association
list with at most one entry per key (all operations preserve this). -/
abbrev Header := List (Str × List Str)

namespace Header

/-- Raw map read `h[k]` (missing key gives the empty list, like a Go `nil`
slice). -/
def get : Header → Str → List Str
  | [], _ => []
  | e :: rest, k => if e.1 = k then e.2 else get rest k

/-- Raw map update `h[k] = v`. -/
def setEntry : Header → Str → List Str → Header
  | [], k, v => [(k, v)]
  | e :: rest, k, v => if e.1 = k then (k, v) :: rest else e :: setEntry rest k v

/-- `http.Header.Set(k, v)`: replace the entry with the single value `v`. -/
def set (h : Header) (k : Str) (v : Str) : Header :=
  h.setEntry k [v]

/-- `http.Header.Add(k, v)`: append `v` to the entry's values. -/
def add (h : Header) (k : Str) (v : Str) : Header :=
  h.setEntry k (h.get k ++ [v])

/-- The header-flushing loop of `connegResponseWriter.WriteHeader`:
`for k, v := range src { dst[k] = append(dst[k], v...) }`.
(Go map iteration order is unspecified; the fold follows the list order,
which is a valid instance of that nondeterminism since distinct keys are
updated independently.) -/
def mergeAppend (dst src : Header) : Header :=
  src.foldl (fun d e => d.setEntry e.1 (d.get e.1 ++ e.2)) dst

end Header

/-! ## 4.1 Token matcher (`hasToken`, `isSeparator`) -/

/-- `isSeparator` from the source: `strings.IndexByte(" \t;,", b) >= 0`. -/
def isSeparator (b : Char) : Bool :=
  b = ' ' || b = '\t' || b = ';' || b = ','

/-- `strings.Index(header, token)`: the first index at which `token` occurs
as a (contiguous) prefix of the remainder, `none` when absent. -/
def strIndexFrom (t : Str) : Str → Option Nat
  | [] => if t.isPrefixOf [] then some 0 else none
  | c :: rest =>
    if t.isPrefixOf (c :: rest) then some 0
    else (strIndexFrom t rest).map (· + 1)

/-- `hasToken` from the source: finds the first occurrence of `token` in
`header` and checks the characters adjacent to that one occurrence. -/
def hasToken (header token : Str) : Bool :=
  match strIndexFrom token header with
  | none => false
  | some i =>
    (i == 0 || isSeparator (header.getD (i - 1) 'a')) &&
    (i + token.length == header.length ||
      isSeparator (header.getD (i + token.length) 'a'))

/-- Spec-side predicate (from the spec's words, for comparison with
`hasToken`): `token` occurs at position `i` of `header` delimited on both
sides by start/end-of-string or a separator character. -/
def occursDelimitedAt (header token : Str) (i : Nat) : Bool :=
  token.isPrefixOf (header.drop i) &&
  (i == 0 || isSeparator (header.getD (i - 1) 'a')) &&
  (i + token.length == header.length ||
    isSeparator (header.getD (i + token.length) 'a'))

/-- Spec-side predicate (from the spec's words): `token` appears somewhere in
`header` delimited on both sides by start/end-of-string or a separator. -/
def tokenAppearsDelimited (header token : Str) : Bool :=
  (List.range (header.length + 1)).any (occursDelimitedAt header token)

/-! ## String constants of the source -/

def brExt : Str := ".br".toList

def gzExt : Str := ".gz".toList

def brTok : Str := "br".toList

def gzTok : Str := "gzip".toList

def indexHtml : Str := "/index.html".toList

def indexName : Str := "index.html".toList

def slashS : Str := "/".toList

def ctK : Str := "Content-Type".toList

def ceK : Str := "Content-Encoding".toList

def varyK : Str := "Vary".toList

def locationK : Str := "Location".toList

def aeVal : Str := "Accept-Encoding".toList

/-- `Content-Type` that `http.Error` sets on a not-found response. -/
def textPlain : Str := "text/plain; charset=utf-8".toList

/-- Body of the standard `http.FileServer` not-found response. -/
def nfBody : Str := "404 page not found\n".toList

def dotSlash : Str := "./".toList

/-- Stand-in for the content type the file-serving primitive detects by
sniffing when the extension has no registered MIME type (model of the
external collaborator; the exact value is irrelevant to the claims). -/
def sniffFallback : Str := "application/octet-stream".toList

/-- `encodingByExtensionMap` from the source (`.br` -> `br`,
`.gz` -> `gzip`), as a function since Go map reads default to `""`. -/
def encodingByExtension (ext : Str) : Option Str :=
  if ext = brExt then some brTok else if ext = gzExt then some gzTok else none

/-- Helper for `filepath.Ext`: walks the reversed path, `seen` holds the
characters already walked (in original order). -/
def extFromRev (seen : Str) : Str → Str
  | [] => []
  | c :: rest =>
    if c = '/' then []
    else if c = '.' then '.' :: seen
    else extFromRev (c :: seen) rest

/-- `filepath.Ext(p)`: the suffix of the final path element starting at its
final dot, empty when the final element has no dot. -/
def filepathExt (p : Str) : Str := extFromRev [] p.reverse

/-- Model of the external `mime.TypeByExtension` lookup restricted to the
extensions this development exercises; all other extensions (including
`.br`, `.gz` and unregistered ones like `.xyz`) resolve to `""`, exactly as
Go's builtin table does. -/
def mimeByExt (e : Str) : Str :=
  if e = ".html".toList then "text/html; charset=utf-8".toList
  else if e = ".txt".toList then "text/plain; charset=utf-8".toList
  else []

/-! ## Response sinks

`RW` models the real (network) `http.ResponseWriter`: a mutable header set,
the first status code written (later `WriteHeader` calls are ignored, as
the standard library does), and the accumulated body. -/

structure RW where
  header : Header
  status : Option Nat
  body : Str
  deriving DecidableEq

/-- A response writer in its initial state, as handed to a handler. -/
def freshRW : RW := ⟨[], none, []⟩

def RW.writeHeader (code : Nat) (w : RW) : RW :=
  if w.status = none then {w with status := some code} else w

def RW.write (b : Str) (w : RW) : RW :=
  let w1 := if w.status = none then {w with status := some 200} else w
  {w1 with body := w1.body ++ b}

/-- The request data this code reads: URL path and the `Accept-Encoding`
header value; `rest` stands for every other request field (method, other
headers, ...), untouched by the handler. -/
structure Request (ρ : Type) where
  path : Str
  acceptEncoding : Str
  rest : ρ
  deriving DecidableEq

/-- The `http.ResponseWriter` capability interface, as an explicit
operations dictionary (Go interface dispatch). `modifyHeader` models a
mutation performed through the map returned by `Header()`. -/
structure SinkOps (σ : Type) where
  getHeader : σ → Header
  modifyHeader : (Header → Header) → σ → σ
  writeHeader : Nat → σ → σ
  write : Str → σ → σ

def rwOps : SinkOps RW where
  getHeader w := w.header
  modifyHeader f w := {w with header := f w.header}
  writeHeader := RW.writeHeader
  write := RW.write

/-! ## 4.2 `connegResponseWriter` (deferred-header shim) -/

structure connegResponseWriter where
  Suppressed : Bool
  realWriter : RW
  header : Header
  wroteHeader : Bool
  deriving DecidableEq

namespace connegResponseWriter

/-- `Header()`: the real writer's header set once committed and not
suppressed, the private buffer otherwise (a fresh buffer is `[]`, standing
for Go's lazily allocated empty map). -/
def HeaderView (w : connegResponseWriter) : Header :=
  if w.wroteHeader && !w.Suppressed then w.realWriter.header else w.header

/-- A header mutation through the map returned by `Header()`. -/
def ModifyHeader (f : Header → Header) (w : connegResponseWriter) :
    connegResponseWriter :=
  if w.wroteHeader && !w.Suppressed then
    {w with realWriter := {w.realWriter with header := f w.realWriter.header}}
  else {w with header := f w.header}

/-- `WriteHeader` from the source: first call commits; 404 suppresses, any
other code flushes the buffered headers by appending and forwards. -/
def WriteHeader (code : Nat) (w : connegResponseWriter) :
    connegResponseWriter :=
  if w.wroteHeader then w
  else
    let w := {w with wroteHeader := true}
    if code = 404 then {w with Suppressed := true}
    else
      let merged := Header.mergeAppend w.realWriter.header w.header
      let real := RW.writeHeader code {w.realWriter with header := merged}
      {w with header := [], realWriter := real}

/-- `Write` from the source: suppressed writes report `len(b)` and do
nothing; otherwise an implicit 200 commit precedes the real write. -/
def Write (b : Str) (w : connegResponseWriter) :
    Nat × connegResponseWriter :=
  if w.Suppressed then (b.length, w)
  else
    let w := if !w.wroteHeader then WriteHeader 200 w else w
    (b.length, {w with realWriter := RW.write b w.realWriter})

/-- `ReadFrom` from the source: suppressed copies report `0, nil`;
otherwise an implicit 200 commit precedes `io.Copy(realWriter, src)`, which
copies all of `src` (the reader is modelled by its available bytes). -/
def ReadFrom (src : Str) (w : connegResponseWriter) :
    Nat × connegResponseWriter :=
  if w.Suppressed then (0, w)
  else
    let w := if !w.wroteHeader then WriteHeader 200 w else w
    (src.length, {w with realWriter := RW.write src w.realWriter})

end connegResponseWriter

def connegOps : SinkOps connegResponseWriter where
  getHeader := connegResponseWriter.HeaderView
  modifyHeader := connegResponseWriter.ModifyHeader
  writeHeader := connegResponseWriter.WriteHeader
  write b w := (connegResponseWriter.Write b w).2

/-! ## 4.3 `responseWithContentEncoding` (auto-header shim) -/

structure responseWithContentEncoding (σ : Type) where
  w : σ
  encoding : Str
  isConneg : Bool
  headersSent : Bool
  deriving DecidableEq

namespace responseWithContentEncoding

/-- `WriteHeader` from the source: only the first call matters; on 200 it
sets `Content-Encoding` (when the encoding is non-empty) and
`Vary: Accept-Encoding` (when negotiated) through `Header()` before
forwarding; any other code is forwarded unchanged. -/
def WriteHeader (ops : SinkOps σ) (code : Nat)
    (r : responseWithContentEncoding σ) : responseWithContentEncoding σ :=
  if r.headersSent then r
  else
    let r := {r with headersSent := true}
    let r :=
      if code = 200 then
        let r :=
          if r.encoding ≠ [] then
            {r with w := ops.modifyHeader (fun h => h.set ceK r.encoding) r.w}
          else r
        if r.isConneg then
          {r with w := ops.modifyHeader (fun h => h.set varyK aeVal) r.w}
        else r
      else r
    {r with w := ops.writeHeader code r.w}

/-- `Write` from the source: implicit 200 commit, then the inner write. -/
def Write (ops : SinkOps σ) (b : Str)
    (r : responseWithContentEncoding σ) : responseWithContentEncoding σ :=
  let r := if !r.headersSent then WriteHeader ops 200 r else r
  {r with w := ops.write b r.w}

end responseWithContentEncoding

def respCEOps (ops : SinkOps σ) :
    SinkOps (responseWithContentEncoding σ) where
  getHeader r := ops.getHeader r.w
  modifyHeader f r := {r with w := ops.modifyHeader f r.w}
  writeHeader := responseWithContentEncoding.WriteHeader ops
  write := responseWithContentEncoding.Write ops

/-! ## The external file-serving primitive

Model of `http.FileServer(root)` as constrained by the spec's boundary
contract (resolve the path against a read-only file map; redirect a
trailing-`index.html` request; serve a directory request via its index
file; not-found gives the fixed plain-text `http.Error` response; content
type set from the request extension only when the handler has not already
set one).  `fs` is the file map: request path (with leading `/`) to stored
bytes.  Side behaviors irrelevant to the claims (Content-Length,
Last-Modified, range requests, directory redirects without a trailing
slash) are omitted. -/

/-- A trailing-slash request asks for the directory's index file. -/
def effectiveName (p : Str) : Str :=
  if slashS.isSuffixOf p then p ++ indexName else p

/-- Content type the file-serving primitive would set itself: registered
MIME type of the served name's extension, else the sniffed stand-in. -/
def detectCT (name : Str) : Str :=
  let m := mimeByExt (filepathExt name)
  if m = [] then sniffFallback else m

def fileServer (fs : Str → Option Str) (ops : SinkOps σ) (r : Request ρ)
    (w : σ) : σ :=
  if indexHtml.isSuffixOf r.path then
    ops.writeHeader 301 (ops.modifyHeader (fun h => h.set locationK dotSlash) w)
  else
    match fs (effectiveName r.path) with
    | some body =>
      let w :=
        if (ops.getHeader w).get ctK = [] then
          ops.modifyHeader (fun h => h.set ctK (detectCT (effectiveName r.path))) w
        else w
      ops.write body (ops.writeHeader 200 w)
    | none =>
      ops.write nfBody (ops.writeHeader 404
        (ops.modifyHeader (fun h => h.set ctK textPlain) w))

/-! ## 4.4 Negotiating file handler -/

/-- `fileHandler.serveCompressedFile` from the source: pre-set the
`Content-Type` from the logical (uncompressed) filename and wrap the sink
in the auto-header shim, unless the MIME type is unknown, in which case the
file-serving primitive is delegated to directly. -/
def serveCompressedFile (fs : Str → Option Str) (ops : SinkOps σ)
    (ext encoding path : Str) (isConneg : Bool) (w : σ) (r : Request ρ) :
    σ :=
  let ct := mimeByExt (filepathExt path)
  if ct = [] then fileServer fs ops r w
  else
    let w := ops.modifyHeader (fun h => h.set ctK ct) w
    (fileServer fs (respCEOps ops) r
      ⟨w, encoding, isConneg, false⟩).w

/-- `fileHandler.tryServeCompressedFile` from the source: rewrite the
request path to the candidate variant, probe through a fresh deferred
shim, restore the path, and report whether the variant was served.  The
possibly-written real writer and the restored request are returned
explicitly (they are mutable objects in Go). -/
def tryServeCompressedFile (fs : Str → Option Str) (ext encoding path : Str)
    (r : Request ρ) (w : RW) : Bool × RW × Request ρ :=
  let oldPath := r.path
  let r1 := {r with path := path ++ ext}
  let crw : connegResponseWriter := ⟨false, w, [], false⟩
  let crw1 := serveCompressedFile fs connegOps ext encoding path true crw r1
  let r2 := {r1 with path := oldPath}
  (!crw1.Suppressed, crw1.realWriter, r2)

/-- `fileHandler.ServeHTTP` from the source. -/
def serveHTTP (fs : Str → Option Str) (r : Request ρ) (w : RW) : RW :=
  let p := r.path
  if indexHtml.isSuffixOf p then fileServer fs rwOps r w
  else
    match encodingByExtension (filepathExt p) with
    | some encoding =>
      serveCompressedFile fs rwOps (filepathExt p) encoding
        (p.take (p.length - (filepathExt p).length)) false w r
    | none =>
      let p1 := effectiveName p
      let ae := r.acceptEncoding
      if hasToken ae brTok then
        let res := tryServeCompressedFile fs brExt brTok p1 r w
        if res.1 then res.2.1
        else if hasToken ae gzTok then
          let res2 := tryServeCompressedFile fs gzExt gzTok p1 res.2.2 res.2.1
          if res2.1 then res2.2.1
          else (fileServer fs (respCEOps rwOps) res2.2.2
            ⟨res2.2.1, [], true, false⟩).w
        else (fileServer fs (respCEOps rwOps) res.2.2
          ⟨res.2.1, [], true, false⟩).w
      else if hasToken ae gzTok then
        let res2 := tryServeCompressedFile fs gzExt gzTok p1 r w
        if res2.1 then res2.2.1
        else (fileServer fs (respCEOps rwOps) res2.2.2
          ⟨res2.2.1, [], true, false⟩).w
      else (fileServer fs (respCEOps rwOps) r ⟨w, [], true, false⟩).w

/-! ## 4.5 `GetWriter` (streaming-compression selector) -/

/-- Result of `GetWriter`: either a streaming gzip writer wrapping the
sink, or the sink itself (no extra layer). -/
inductive NegWriter where
  | gzipWriter (sink : RW)
  | plain (sink : RW)
  deriving DecidableEq

def NegWriter.sink : NegWriter → RW
  | .gzipWriter w => w
  | .plain w => w

def NegWriter.isGzip : NegWriter → Bool
  | .gzipWriter _ => true
  | .plain _ => false

/-- `GetWriter` from the source: `w.Header().Add("Vary",
"Accept-Encoding")`, then a gzip writer wrapping `w` iff the request's
`Accept-Encoding` has the `gzip` token, else `w` itself. -/
def GetWriter (w : RW) (r : Request ρ) : NegWriter :=
  let w1 := {w with header := w.header.add varyK aeVal}
  if hasToken r.acceptEncoding gzTok then .gzipWriter w1 else .plain w1

/-! ## Concrete fixtures (used by witnesses and counterexamples) -/

/-- Example file map: an `.html` resource with both compressed variants. -/
def fsHtml : Str → Option Str := fun p =>
  if p = "/d/foo.html".toList then some "unc".toList
  else if p = "/d/foo.html.br".toList then some "brb".toList
  else if p = "/d/foo.html.gz".toList then some "gzb".toList
  else none

/-- Example file map: a resource with an unregistered extension (`.xyz`)
and both compressed variants. -/
def fsXyz : Str → Option Str := fun p =>
  if p = "/d.xyz.br".toList then some "BRX".toList
  else if p = "/d.xyz.gz".toList then some "GZX".toList
  else if p = "/d.xyz".toList then some "UNX".toList
  else none

/-- The empty file map. -/
def fsEmpty : Str → Option Str := fun _ => none

/-- A suppressed deferred-shim state (right after a 404 commit). -/
def suppressedShim : connegResponseWriter := ⟨true, freshRW, [], true⟩

/-- An uncommitted deferred-shim state with buffered headers (one of which
collides with a header already on the real writer). -/
def bufferedShim : connegResponseWriter :=
  ⟨false, ⟨[(varyK, [aeVal])], none, []⟩,
    [(ctK, [textPlain]), (varyK, [gzTok])], false⟩

/-- A real-writer state whose delegate already set `Content-Encoding` and
`Vary` values. -/
def dirtyRW : RW := ⟨[(ceK, [gzTok]), (varyK, [ctK])], none, []⟩

/-- A real-writer state with a prior `Vary` value and another header. -/
def wVary : RW := ⟨[(varyK, [gzTok]), (ctK, [textPlain])], none, []⟩

end Encneg

namespace Testhandlers

/-- Observable outcome of one `Delay(h).ServeHTTP` call: the arguments of
every `sleep` call made (the source's `sleep` variable, instrumented by its
test), and how many times the wrapped handler ran. -/
structure DelayOutcome where
  sleepCalls : List Int
  handlerRuns : Nat
  deriving DecidableEq

/-- Actual blocking time of a sequence of `time.Sleep` calls:
`time.Sleep` pauses for at least `d`, and a negative or zero duration
returns immediately. -/
def blockedFor (calls : List Int) : Int :=
  calls.foldl (fun a d => a + max d 0) 0

/-- `Delay` from the source, parametrized by the external
`time.ParseDuration` (`none` models a parse error) and applied to the
request's `delay` query parameter (`""` when absent, as
`url.Values.Get`). -/
def Delay (parseDuration : String → Option Int) (delayParam : String) :
    DelayOutcome :=
  if delayParam ≠ "" then
    match parseDuration delayParam with
    | some dd => {sleepCalls := [dd], handlerRuns := 1}
    | none => {sleepCalls := [], handlerRuns := 1}
  else {sleepCalls := [], handlerRuns := 1}

/-- Example parse function: only `-5s` parses (to -5e9 nanoseconds), as
`time.ParseDuration` does for a negative duration. -/
def parseNeg : String → Option Int := fun s =>
  if s = "-5s" then some (-5000000000) else none

end Testhandlers

/-! # Theorems -/

namespace Encneg

namespace Header

@[simp] theorem get_nil (k : Str) : get [] k = [] := rfl

@[simp] theorem get_setEntry_self (h : Header) (k : Str) (v : List Str) :
    (h.setEntry k v).get k = v := by
  induction h with
  | nil => simp [setEntry, get]
  | cons e rest ih =>
    by_cases hk : e.1 = k <;> simp [setEntry, get, hk, ih]

theorem get_setEntry_ne (h : Header) (k k' : Str) (v : List Str)
    (hne : k' ≠ k) : (h.setEntry k v).get k' = h.get k' := by
  induction h with
  | nil => simp [setEntry, get, Ne.symm hne]
  | cons e rest ih =>
    by_cases hk : e.1 = k
    · simp [setEntry, get, hk, Ne.symm hne]
    · by_cases hk' : e.1 = k' <;> simp [setEntry, get, hk, hk', hne, ih]

@[simp] theorem get_set_self (h : Header) (k : Str) (v : Str) :
    (h.set k v).get k = [v] := by
  simp [set]

theorem get_set_ne (h : Header) (k k' : Str) (v : Str) (hne : k' ≠ k) :
    (h.set k v).get k' = h.get k' := by
  simp [set, get_setEntry_ne _ _ _ _ hne]

theorem get_add (h : Header) (k : Str) (v : Str) :
    (h.add k v).get k = h.get k ++ [v] := by
  simp [add]

theorem get_add_ne (h : Header) (k k' : Str) (v : Str) (hne : k' ≠ k) :
    (h.add k v).get k' = h.get k' := by
  simp [add, get_setEntry_ne _ _ _ _ hne]

theorem get_eq_nil_of_not_mem_keys (h : Header) (k : Str)
    (hk : k ∉ h.map Prod.fst) : h.get k = [] := by
  induction h with
  | nil => rfl
  | cons e rest ih =>
    simp only [List.map_cons, List.mem_cons, not_or] at hk
    simp [get, Ne.symm hk.1, ih hk.2]

theorem get_mergeAppend_of_not_mem (dst src : Header) (k : Str)
    (hk : k ∉ src.map Prod.fst) : (mergeAppend dst src).get k = dst.get k := by
  induction src generalizing dst with
  | nil => rfl
  | cons e rest ih =>
    simp only [List.map_cons, List.mem_cons, not_or] at hk
    simpa [mergeAppend, List.foldl_cons] using
      (ih _ hk.2).trans (get_setEntry_ne _ _ _ _ hk.1)

theorem mergeAppend_cons (dst : Header) (e : Str × List Str)
    (rest : Header) :
    mergeAppend dst (e :: rest) =
      mergeAppend (dst.setEntry e.1 (dst.get e.1 ++ e.2)) rest := rfl

/-- Per-key description of the header-flushing loop: provided the buffered
header set has no duplicate keys, the flush appends each buffered value list
to the corresponding real entry. -/
theorem get_mergeAppend (dst src : Header) (hnd : (src.map Prod.fst).Nodup)
    (k : Str) : (mergeAppend dst src).get k = dst.get k ++ src.get k := by
  induction src generalizing dst with
  | nil => simp [mergeAppend, get]
  | cons e rest ih =>
    simp only [List.map_cons, List.nodup_cons] at hnd
    rw [mergeAppend_cons]
    by_cases hk : k = e.1
    · rw [get_mergeAppend_of_not_mem _ _ _ (hk ▸ hnd.1), hk,
        get_setEntry_self]
      simp [get]
    · rw [ih _ hnd.2, get_setEntry_ne _ _ _ _ hk]
      simp [get, Ne.symm hk]

end Header

theorem strIndexFrom_sound (t : Str) (h : Str) (i : Nat)
    (hix : strIndexFrom t h = some i) :
    t.isPrefixOf (h.drop i) = true ∧ i + t.length ≤ h.length := by
  induction h generalizing i with
  | nil =>
    simp only [strIndexFrom] at hix
    split at hix
    · rename_i hpre
      cases hix
      have ht : t = [] := by
        cases t with
        | nil => rfl
        | cons a as => simp [List.isPrefixOf] at hpre
      subst ht
      exact ⟨by simp, by simp⟩
    · cases hix
  | cons c rest ih =>
    simp only [strIndexFrom] at hix
    split at hix
    · rename_i hpre
      cases hix
      have hp : t <+: c :: rest := by simpa using hpre
      exact ⟨by simpa using hpre, by simpa using hp.length_le⟩
    · rcases Option.map_eq_some'.mp hix with ⟨j, hj, rfl⟩
      obtain ⟨h1, h2⟩ := ih j hj
      refine ⟨by simpa using h1, ?_⟩
      simp only [List.length_cons]
      omega

/-! ## Path-shape helper lemmas -/

theorem not_isSuffixOf_of_getLast (a b : Str) (ha : a ≠ [])
    (h : a.getLast? ≠ b.getLast?) : a.isSuffixOf b = false := by
  by_contra hcon
  rw [Bool.not_eq_false] at hcon
  have hsuf : a <:+ b := by simpa using hcon
  obtain ⟨tl, rfl⟩ := hsuf
  rw [List.getLast?_append] at h
  obtain ⟨x, hx⟩ := Option.isSome_iff_exists.mp (List.getLast?_isSome.mpr ha)
  rw [hx, Option.or_some] at h
  exact h rfl

theorem not_suffix_append_ext (q s e : Str) (hs : s ≠ []) (c : Char)
    (hce : e.getLast? = some c) (hsc : s.getLast? ≠ some c) :
    s.isSuffixOf (q ++ e) = false := by
  apply not_isSuffixOf_of_getLast _ _ hs
  rw [List.getLast?_append, hce, Option.or_some]
  exact hsc

theorem indexHtml_not_suffix_br (q : Str) :
    indexHtml.isSuffixOf (q ++ brExt) = false :=
  not_suffix_append_ext q indexHtml brExt (by decide) 'r' (by decide) (by decide)

theorem indexHtml_not_suffix_gz (q : Str) :
    indexHtml.isSuffixOf (q ++ gzExt) = false :=
  not_suffix_append_ext q indexHtml gzExt (by decide) 'z' (by decide) (by decide)

theorem slash_not_suffix_br (q : Str) :
    slashS.isSuffixOf (q ++ brExt) = false :=
  not_suffix_append_ext q slashS brExt (by decide) 'r' (by decide) (by decide)

theorem slash_not_suffix_gz (q : Str) :
    slashS.isSuffixOf (q ++ gzExt) = false :=
  not_suffix_append_ext q slashS gzExt (by decide) 'z' (by decide) (by decide)

/-- A path whose `filepath.Ext` is non-empty cannot end in `/` (the
extension scan stops at the first `/` from the right). -/
theorem slash_not_suffix_of_ext_ne_nil (p : Str) (h : filepathExt p ≠ []) :
    slashS.isSuffixOf p = false := by
  unfold filepathExt at h
  cases hp : p.reverse with
  | nil => rw [hp] at h; simp [extFromRev] at h
  | cons c rest =>
    rw [hp] at h
    have hc : c ≠ '/' := by
      intro hcc
      rw [extFromRev, if_pos hcc] at h
      exact h rfl
    apply not_isSuffixOf_of_getLast _ _ (by decide)
    intro hcon
    have h2 : p.getLast? = some c := by
      rw [List.getLast?_eq_head?_reverse, hp]; rfl
    have h3 : slashS.getLast? = some '/' := by decide
    rw [h2, h3] at hcon
    exact hc (Option.some.inj hcon).symm

/-! ## Header-key disequalities -/

theorem locationK_ne_varyK : locationK ≠ varyK := by decide

theorem ctK_ne_ceK : ctK ≠ ceK := by decide

theorem ctK_ne_varyK : ctK ≠ varyK := by decide

theorem ceK_ne_varyK : ceK ≠ varyK := by decide

theorem ceK_ne_ctK : ceK ≠ ctK := by decide

theorem varyK_ne_ctK : varyK ≠ ctK := by decide

theorem varyK_ne_ceK : varyK ≠ ceK := by decide

/-! ## Candidate-probe and fallback characterizations -/

/-- A probe whose variant file does not exist leaves the real writer and
the request exactly as they were and reports "not served". -/
theorem tryServe_none {ρ : Type} (fs : Str → Option Str)
    (ext enc path : Str) (r : Request ρ) (w : RW)
    (hfs : fs (path ++ ext) = none)
    (hni : indexHtml.isSuffixOf (path ++ ext) = false)
    (hns : slashS.isSuffixOf (path ++ ext) = false) :
    tryServeCompressedFile fs ext enc path r w = (false, w, r) := by
  by_cases hct : mimeByExt (filepathExt path) = []
  · simp [tryServeCompressedFile, serveCompressedFile, hct, fileServer,
      effectiveName, hni, hns, hfs, connegOps,
      connegResponseWriter.ModifyHeader, connegResponseWriter.WriteHeader,
      connegResponseWriter.Write]
  · simp [tryServeCompressedFile, serveCompressedFile, hct, fileServer,
      effectiveName, hni, hns, hfs, connegOps, respCEOps,
      responseWithContentEncoding.WriteHeader,
      responseWithContentEncoding.Write,
      connegResponseWriter.ModifyHeader, connegResponseWriter.WriteHeader,
      connegResponseWriter.Write]

/-- A probe whose variant file exists, in the resolvable-MIME-type case:
the variant is served through both shims onto a fresh real writer, which
ends up with Content-Type, Content-Encoding and Vary set, status 200, and
the variant bytes as body. -/
theorem tryServe_some_ct {ρ : Type} (fs : Str → Option Str)
    (ext enc path body : Str) (r : Request ρ)
    (hfs : fs (path ++ ext) = some body)
    (hct : mimeByExt (filepathExt path) ≠ [])
    (henc : enc ≠ [])
    (hni : indexHtml.isSuffixOf (path ++ ext) = false)
    (hns : slashS.isSuffixOf (path ++ ext) = false) :
    tryServeCompressedFile fs ext enc path r freshRW =
      (true,
        ⟨[(ctK, [mimeByExt (filepathExt path)]), (ceK, [enc]),
          (varyK, [aeVal])], some 200, body⟩,
        r) := by
  simp [tryServeCompressedFile, serveCompressedFile, fileServer,
    effectiveName, hni, hns, hfs, hct, henc, freshRW,
    connegOps, respCEOps,
    responseWithContentEncoding.WriteHeader,
    responseWithContentEncoding.Write,
    connegResponseWriter.ModifyHeader, connegResponseWriter.WriteHeader,
    connegResponseWriter.Write, connegResponseWriter.HeaderView,
    Header.mergeAppend, Header.setEntry, Header.get, Header.set,
    RW.writeHeader, RW.write,
    ctK_ne_ceK, ctK_ne_varyK, ceK_ne_varyK, ceK_ne_ctK, varyK_ne_ctK,
    varyK_ne_ceK]

/-- A probe whose variant file exists but whose logical filename has no
registered MIME type: the variant is still served (through the deferred
shim only), with a detected Content-Type, no Content-Encoding and no
Vary. -/
theorem tryServe_some_noct {ρ : Type} (fs : Str → Option Str)
    (ext enc path body : Str) (r : Request ρ)
    (hfs : fs (path ++ ext) = some body)
    (hct : mimeByExt (filepathExt path) = [])
    (hni : indexHtml.isSuffixOf (path ++ ext) = false)
    (hns : slashS.isSuffixOf (path ++ ext) = false) :
    tryServeCompressedFile fs ext enc path r freshRW =
      (true, ⟨[(ctK, [detectCT (path ++ ext)])], some 200, body⟩, r) := by
  simp [tryServeCompressedFile, serveCompressedFile, fileServer,
    effectiveName, hni, hns, hfs, hct, freshRW, connegOps,
    connegResponseWriter.ModifyHeader, connegResponseWriter.WriteHeader,
    connegResponseWriter.Write, connegResponseWriter.HeaderView,
    Header.mergeAppend, Header.setEntry, Header.get, Header.set,
    RW.writeHeader, RW.write]

/-- The uncompressed fallback when the resource is missing: the plain-text
not-found response, no injected headers. -/
theorem fallback_none {ρ : Type} (fs : Str → Option Str) (r : Request ρ)
    (hni : indexHtml.isSuffixOf r.path = false)
    (hfs : fs (effectiveName r.path) = none) :
    (fileServer fs (respCEOps rwOps) r ⟨freshRW, [], true, false⟩).w =
      ⟨[(ctK, [textPlain])], some 404, nfBody⟩ := by
  simp [fileServer, hni, hfs, respCEOps, rwOps, freshRW,
    responseWithContentEncoding.WriteHeader,
    responseWithContentEncoding.Write,
    RW.writeHeader, RW.write, Header.set, Header.setEntry]

/-- The uncompressed fallback when the resource exists: served with the
detected Content-Type and `Vary: Accept-Encoding`, no Content-Encoding. -/
theorem fallback_some {ρ : Type} (fs : Str → Option Str) (r : Request ρ)
    (body : Str)
    (hni : indexHtml.isSuffixOf r.path = false)
    (hfs : fs (effectiveName r.path) = some body) :
    (fileServer fs (respCEOps rwOps) r ⟨freshRW, [], true, false⟩).w =
      ⟨[(ctK, [detectCT (effectiveName r.path)]), (varyK, [aeVal])],
        some 200, body⟩ := by
  simp [fileServer, hni, hfs, respCEOps, rwOps, freshRW,
    responseWithContentEncoding.WriteHeader,
    responseWithContentEncoding.Write,
    RW.writeHeader, RW.write, Header.set, Header.setEntry, Header.get,
    ctK_ne_varyK]

/-- The file-serving primitive used directly on a fresh real writer,
not-found case. -/
theorem rwFileServer_none {ρ : Type} (fs : Str → Option Str)
    (r : Request ρ)
    (hni : indexHtml.isSuffixOf r.path = false)
    (hfs : fs (effectiveName r.path) = none) :
    fileServer fs rwOps r freshRW = ⟨[(ctK, [textPlain])], some 404, nfBody⟩ := by
  simp [fileServer, hni, hfs, rwOps, freshRW,
    RW.writeHeader, RW.write, Header.set, Header.setEntry]

/-- The file-serving primitive used directly on a fresh real writer,
found case. -/
theorem rwFileServer_some {ρ : Type} (fs : Str → Option Str)
    (r : Request ρ) (body : Str)
    (hni : indexHtml.isSuffixOf r.path = false)
    (hfs : fs (effectiveName r.path) = some body) :
    fileServer fs rwOps r freshRW =
      ⟨[(ctK, [detectCT (effectiveName r.path)])], some 200, body⟩ := by
  simp [fileServer, hni, hfs, rwOps, freshRW,
    RW.writeHeader, RW.write, Header.set, Header.setEntry, Header.get]

/-- The index-redirect passthrough: a 301 with only a Location header. -/
theorem rwFileServer_redirect {ρ : Type} (fs : Str → Option Str)
    (r : Request ρ)
    (hI : indexHtml.isSuffixOf r.path = true) :
    fileServer fs rwOps r freshRW = ⟨[(locationK, [dotSlash])], some 301, []⟩ := by
  simp [fileServer, hI, rwOps, freshRW, RW.writeHeader, Header.set,
    Header.setEntry]

/-- Direct compressed-file request, resolvable MIME type, file present:
Content-Type and Content-Encoding set, no Vary, status 200. -/
theorem direct_ct_some {ρ : Type} (fs : Str → Option Str)
    (ext enc path2 body : Str) (r : Request ρ)
    (hct : mimeByExt (filepathExt path2) ≠ [])
    (henc : enc ≠ [])
    (hni : indexHtml.isSuffixOf r.path = false)
    (hns : slashS.isSuffixOf r.path = false)
    (hfs : fs r.path = some body) :
    serveCompressedFile fs rwOps ext enc path2 false freshRW r =
      ⟨[(ctK, [mimeByExt (filepathExt path2)]), (ceK, [enc])],
        some 200, body⟩ := by
  simp [serveCompressedFile, fileServer, effectiveName, hni, hns, hfs, hct,
    henc, rwOps, respCEOps, freshRW,
    responseWithContentEncoding.WriteHeader,
    responseWithContentEncoding.Write,
    RW.writeHeader, RW.write, Header.set, Header.setEntry, Header.get,
    ctK_ne_ceK]

/-- Direct compressed-file request, resolvable MIME type, file missing:
the plain-text not-found response, no Content-Encoding. -/
theorem direct_ct_none {ρ : Type} (fs : Str → Option Str)
    (ext enc path2 : Str) (r : Request ρ)
    (hct : mimeByExt (filepathExt path2) ≠ [])
    (hni : indexHtml.isSuffixOf r.path = false)
    (hns : slashS.isSuffixOf r.path = false)
    (hfs : fs r.path = none) :
    serveCompressedFile fs rwOps ext enc path2 false freshRW r =
      ⟨[(ctK, [textPlain])], some 404, nfBody⟩ := by
  simp [serveCompressedFile, fileServer, effectiveName, hni, hns, hfs, hct,
    rwOps, respCEOps, freshRW,
    responseWithContentEncoding.WriteHeader,
    responseWithContentEncoding.Write,
    RW.writeHeader, RW.write, Header.set, Header.setEntry]

/-- Direct compressed-file request with unresolvable MIME type: the
primitive is delegated to with no shim at all. -/
theorem direct_noct {ρ : Type} (fs : Str → Option Str)
    (ext enc path2 : Str) (r : Request ρ) (w : RW)
    (hct : mimeByExt (filepathExt path2) = []) :
    serveCompressedFile fs rwOps ext enc path2 false w r =
      fileServer fs rwOps r w := by
  simp [serveCompressedFile, hct]

theorem RW.writeHeader_header (code : Nat) (w : RW) :
    (RW.writeHeader code w).header = w.header := by
  unfold RW.writeHeader; split <;> rfl

/-- serveHTTP dispatch: index-redirect branch. -/
theorem serveHTTP_redirect {ρ : Type} (fs : Str → Option Str)
    (r : Request ρ) (hI : indexHtml.isSuffixOf r.path = true) :
    serveHTTP fs r freshRW = ⟨[(locationK, [dotSlash])], some 301, []⟩ := by
  unfold serveHTTP
  simp only [hI, if_true]
  exact rwFileServer_redirect fs r hI

/-- serveHTTP dispatch: direct compressed-file branch. -/
theorem serveHTTP_direct {ρ : Type} (fs : Str → Option Str)
    (r : Request ρ) (enc : Str) (w : RW)
    (hI : indexHtml.isSuffixOf r.path = false)
    (hE : encodingByExtension (filepathExt r.path) = some enc) :
    serveHTTP fs r w =
      serveCompressedFile fs rwOps (filepathExt r.path) enc
        (r.path.take (r.path.length - (filepathExt r.path).length))
        false w r := by
  unfold serveHTTP
  simp only [hI, Bool.false_eq_true, if_false, hE]

/-- The two recognized extension tokens are non-empty. -/
theorem encodingByExtension_ne_nil (ext enc : Str)
    (hE : encodingByExtension ext = some enc) : enc ≠ [] := by
  unfold encodingByExtension at hE
  split at hE
  · cases hE; decide
  · split at hE
    · cases hE; decide
    · cases hE

/-- A recognized extension is non-empty, hence the path cannot end in a
slash. -/
theorem encodingByExtension_ext_ne_nil (ext enc : Str)
    (hE : encodingByExtension ext = some enc) : ext ≠ [] := by
  unfold encodingByExtension at hE
  split at hE
  · rename_i h; rw [h]; decide
  · split at hE
    · rename_i h; rw [h]; decide
    · cases hE

/-! ## Claim theorems -/

/-- Claim C1 (amended): `hasToken` is sound — whenever it returns true the
token does appear in the header delimited on both sides by
start/end-of-string or a separator (so it never matches a substring of a
longer token), and a non-empty token never matches the empty header; it
may however return `false` although the token appears delimited, because
it inspects only the first occurrence of the token. -/
theorem hasToken_sound (h t : Str) :
    (hasToken h t = true → tokenAppearsDelimited h t = true) ∧
    (t ≠ [] → hasToken [] t = false) := by
  constructor
  · intro hht
    unfold hasToken at hht
    cases hix : strIndexFrom t h with
    | none => rw [hix] at hht; cases hht
    | some i =>
      rw [hix] at hht
      rw [Bool.and_eq_true] at hht
      obtain ⟨hb1, hb2⟩ := hht
      obtain ⟨hpre, hlen⟩ := strIndexFrom_sound t h i hix
      unfold tokenAppearsDelimited
      rw [List.any_eq_true]
      refine ⟨i, List.mem_range.mpr (by omega), ?_⟩
      unfold occursDelimitedAt
      rw [hpre, hb1, hb2]
      rfl
  · intro ht
    cases t with
    | nil => exact absurd rfl ht
    | cons a as => simp [hasToken, strIndexFrom, List.isPrefixOf]

/-- Claim C1 witness: `hasToken` instantiated at inputs discharging both
hypotheses. -/
theorem hasToken_sound_witness :
    tokenAppearsDelimited "foo,gzip".toList "gzip".toList = true ∧
    hasToken [] "gzip".toList = false :=
  ⟨(hasToken_sound "foo,gzip".toList "gzip".toList).1 (by decide),
    (hasToken_sound "foo,gzip".toList "gzip".toList).2 (by decide)⟩

/-- Claim C1 counterexample: the token `gzip` appears delimited in
`gzipx,gzip` (at its second occurrence) but `hasToken` returns false,
because the first occurrence is not delimited on the right. -/
theorem hasToken_first_occurrence_counterexample :
    hasToken "gzipx,gzip".toList "gzip".toList = false ∧
    tokenAppearsDelimited "gzipx,gzip".toList "gzip".toList = true := by
  decide

/-- Claim C3 (amended): once the deferred shim is suppressed, `Write` is a
no-op on the shim and real sink that reports full consumption (`len(b)`,
nil error), while `ReadFrom` is a no-op that reports `0` bytes copied (nil
error), leaving its reader unconsumed rather than reporting its available
byte count. -/
theorem suppressed_write_noop (s : connegResponseWriter) (b src : Str)
    (hs : s.Suppressed = true) :
    connegResponseWriter.Write b s = (b.length, s) ∧
    connegResponseWriter.ReadFrom src s = (0, s) := by
  simp [connegResponseWriter.Write, connegResponseWriter.ReadFrom, hs]

/-- Claim C3 witness: the no-op results on a concrete suppressed state. -/
theorem suppressed_write_noop_witness :
    connegResponseWriter.Write "ab".toList suppressedShim =
      (2, suppressedShim) ∧
    connegResponseWriter.ReadFrom "cd".toList suppressedShim =
      (0, suppressedShim) :=
  ⟨(suppressed_write_noop suppressedShim "ab".toList "cd".toList rfl).1,
    (suppressed_write_noop suppressedShim "ab".toList "cd".toList rfl).2⟩

/-- Claim C3 counterexample: a suppressed bulk-copy of a 2-byte reader
reports 0 bytes, not the input's available-byte count. -/
theorem suppressed_readFrom_counterexample :
    suppressedShim.Suppressed = true ∧
    (connegResponseWriter.ReadFrom "ab".toList suppressedShim).1 = 0 ∧
    (connegResponseWriter.ReadFrom "ab".toList suppressedShim).1 ≠
      ("ab".toList).length := by
  decide

/-- Claim C4: the first write-status call with 404 suppresses — the real
sink is untouched and the call is never forwarded; a first call with any
other code copies every buffered header into the real sink's header set by
appending (preserving multi-valued headers) and forwards the status. -/
theorem connegWriteHeader_commit (s : connegResponseWriter) (code : Nat)
    (hw : s.wroteHeader = false)
    (hnd : (s.header.map Prod.fst).Nodup) :
    (code = 404 →
      (connegResponseWriter.WriteHeader code s).realWriter = s.realWriter ∧
      (connegResponseWriter.WriteHeader code s).Suppressed = true) ∧
    (code ≠ 404 →
      (connegResponseWriter.WriteHeader code s).Suppressed = s.Suppressed ∧
      (connegResponseWriter.WriteHeader code s).realWriter =
        RW.writeHeader code
          {s.realWriter with
            header := Header.mergeAppend s.realWriter.header s.header} ∧
      (∀ k,
        (connegResponseWriter.WriteHeader code s).realWriter.header.get k =
          s.realWriter.header.get k ++ s.header.get k)) := by
  constructor
  · intro h404
    simp [connegResponseWriter.WriteHeader, hw, h404]
  · intro hne
    have hr : (connegResponseWriter.WriteHeader code s).realWriter =
        RW.writeHeader code
          {s.realWriter with
            header := Header.mergeAppend s.realWriter.header s.header} := by
      simp [connegResponseWriter.WriteHeader, hw, hne]
    refine ⟨by simp [connegResponseWriter.WriteHeader, hw, hne], hr, ?_⟩
    intro k
    rw [hr, RW.writeHeader_header]
    exact Header.get_mergeAppend _ _ hnd k

/-- Claim C4 witness: flushing a buffered `Vary` onto a real writer that
already carries one appends rather than overwrites. -/
theorem connegWriteHeader_commit_witness :
    (connegResponseWriter.WriteHeader 200 bufferedShim).realWriter.header.get
        varyK =
      bufferedShim.realWriter.header.get varyK ++
        bufferedShim.header.get varyK :=
  ((connegWriteHeader_commit bufferedShim 200 (by decide) (by decide)).2
    (by decide)).2.2 varyK

/-- Claim C7: a candidate probe hands back the request with its URL path
restored to the original value and every other field untouched, on both
probe outcomes. -/
theorem probe_restores_request {ρ : Type} (fs : Str → Option Str)
    (ext enc path : Str) (r : Request ρ) (w : RW) :
    (tryServeCompressedFile fs ext enc path r w).2.2 = r := rfl

/-- Claim C8: `GetWriter` always appends `Accept-Encoding` to the sink's
`Vary` header (touching nothing else on the sink), and wraps the sink in a
gzip writer exactly when the request's `Accept-Encoding` has the `gzip`
token per `hasToken`; otherwise the sink itself comes back with no extra
layer. -/
theorem getWriter_contract {ρ : Type} (w : RW) (r : Request ρ) :
    (GetWriter w r).isGzip = hasToken r.acceptEncoding gzTok ∧
    (GetWriter w r).sink.header.get varyK =
      w.header.get varyK ++ [aeVal] ∧
    (∀ k, k ≠ varyK → (GetWriter w r).sink.header.get k = w.header.get k) ∧
    (GetWriter w r).sink.status = w.status ∧
    (GetWriter w r).sink.body = w.body ∧
    (hasToken r.acceptEncoding gzTok = false →
      GetWriter w r = NegWriter.plain (GetWriter w r).sink) := by
  cases hg : hasToken r.acceptEncoding gzTok <;>
    exact ⟨by simp [GetWriter, hg, NegWriter.isGzip],
      by simp [GetWriter, hg, NegWriter.sink, Header.get_add],
      fun k hk => by
        simp [GetWriter, hg, NegWriter.sink, Header.get_add_ne _ _ _ _ hk],
      by simp [GetWriter, hg, NegWriter.sink],
      by simp [GetWriter, hg, NegWriter.sink],
      fun hng => by simp [GetWriter, hg, NegWriter.sink] at hng ⊢⟩

/-- Claim C8 witness: a non-`Vary` header is untouched on a concrete sink
and request. -/
theorem getWriter_contract_witness :
    (GetWriter wVary (⟨[], gzTok, ()⟩ : Request Unit)).sink.header.get ctK =
      wVary.header.get ctK :=
  (getWriter_contract wVary (⟨[], gzTok, ()⟩ : Request Unit)).2.2.1 ctK
    (by decide)

/-- Claim C10: when the auto-header shim commits a success status, the
injected headers overwrite: afterwards `Content-Encoding` holds exactly the
injected encoding (when non-empty) and `Vary` holds exactly
`Accept-Encoding` (in the negotiated configuration), whatever values the
delegate had stored under those names. -/
theorem success_injection_overwrites (inner : RW) (enc : Str)
    (conneg : Bool) (henc : enc ≠ []) :
    ((responseWithContentEncoding.WriteHeader rwOps 200
        ⟨inner, enc, conneg, false⟩).w.header.get ceK = [enc]) ∧
    (conneg = true →
      (responseWithContentEncoding.WriteHeader rwOps 200
          ⟨inner, enc, conneg, false⟩).w.header.get varyK = [aeVal]) := by
  cases conneg
  · constructor
    · simp [responseWithContentEncoding.WriteHeader, henc, rwOps,
        RW.writeHeader_header]
    · intro hcon; cases hcon
  · constructor
    · simp [responseWithContentEncoding.WriteHeader, henc, rwOps,
        RW.writeHeader_header, Header.get_set_ne _ _ _ _ ceK_ne_varyK]
    · intro _
      simp [responseWithContentEncoding.WriteHeader, henc, rwOps,
        RW.writeHeader_header]

/-- Claim C10 witness: on a sink whose delegate already set both headers,
the 200 commit replaces them with the single injected values. -/
theorem success_injection_overwrites_witness :
    (responseWithContentEncoding.WriteHeader rwOps 200
        ⟨dirtyRW, brTok, true, false⟩).w.header.get ceK = [brTok] ∧
    (responseWithContentEncoding.WriteHeader rwOps 200
        ⟨dirtyRW, brTok, true, false⟩).w.header.get varyK = [aeVal] :=
  ⟨(success_injection_overwrites dirtyRW brTok true (by decide)).1,
    (success_injection_overwrites dirtyRW brTok true (by decide)).2 rfl⟩

end Encneg

namespace Testhandlers

/-- Claim C9: the delay handler always invokes the wrapped handler exactly
once; it makes no sleep call when the parameter is absent/empty or fails to
parse; when the parameter parses to `dd` it makes exactly one sleep call
whose actual blocking time is `max dd 0` (so a negative duration blocks for
nothing and the handler proceeds immediately), and no error is ever
surfaced. -/
theorem delay_contract (parse : String → Option Int) (d : String) :
    (Delay parse d).handlerRuns = 1 ∧
    (d = "" → (Delay parse d).sleepCalls = []) ∧
    (parse d = none → (Delay parse d).sleepCalls = []) ∧
    (∀ dd : Int, d ≠ "" → parse d = some dd →
      (Delay parse d).sleepCalls = [dd] ∧
      blockedFor (Delay parse d).sleepCalls = max dd 0) := by
  by_cases hd : d = ""
  · refine ⟨by simp [Delay, hd], fun _ => by simp [Delay, hd],
      fun _ => by simp [Delay, hd], fun dd hne _ => absurd hd hne⟩
  · cases hp : parse d with
    | none =>
      refine ⟨by simp [Delay, hd, hp], fun h => absurd h hd,
        fun _ => by simp [Delay, hd, hp], fun dd _ hsome => ?_⟩
      cases hsome
    | some dd0 =>
      refine ⟨by simp [Delay, hd, hp], fun h => absurd h hd, ?_, ?_⟩
      · intro h; cases h
      · intro dd _ hsome
        cases hsome
        exact ⟨by simp [Delay, hd, hp],
          by simp [Delay, hd, hp, blockedFor]⟩

/-- Claim C9 witness: a negative `-5s` delay parameter parses but blocks
for nothing, and the wrapped handler runs exactly once. -/
theorem delay_contract_witness :
    (Delay parseNeg "-5s").handlerRuns = 1 ∧
    blockedFor (Delay parseNeg "-5s").sleepCalls = max (-5000000000) 0 :=
  ⟨(delay_contract parseNeg "-5s").1,
    ((delay_contract parseNeg "-5s").2.2.2 (-5000000000) (by decide)
      (by decide)).2⟩

end Testhandlers

namespace Encneg

/-- Claim C6: a not-found response never carries `Content-Encoding`,
whichever candidate attempt produced it; and the auto-header shim injects
only when the first status written is 200, forwarding every other first
status unchanged with no injection. -/
theorem notFound_no_content_encoding {ρ : Type} (fs : Str → Option Str)
    (r : Request ρ)
    (h404 : (serveHTTP fs r freshRW).status = some 404) :
    (serveHTTP fs r freshRW).header.get ceK = [] ∧
    (∀ (σ : Type) (ops : SinkOps σ)
      (rce : responseWithContentEncoding σ) (code : Nat),
      rce.headersSent = false → code ≠ 200 →
      responseWithContentEncoding.WriteHeader ops code rce =
        {rce with headersSent := true, w := ops.writeHeader code rce.w}) := by
  refine ⟨?_, fun σ ops rce code hhs hc => by
    simp [responseWithContentEncoding.WriteHeader, hhs, hc]⟩
  by_cases hI : indexHtml.isSuffixOf r.path = true
  · rw [serveHTTP_redirect fs r hI] at h404
    simp at h404
  · rw [Bool.not_eq_true] at hI
    cases hE : encodingByExtension (filepathExt r.path) with
    | some enc =>
      have hext : filepathExt r.path ≠ [] := by
        intro hnil
        rw [hnil] at hE
        simp [encodingByExtension, brExt, gzExt] at hE
      have hslash : slashS.isSuffixOf r.path = false :=
        slash_not_suffix_of_ext_ne_nil r.path hext
      rw [serveHTTP_direct fs r enc freshRW hI hE] at h404 ⊢
      by_cases hct : mimeByExt (filepathExt
          (r.path.take (r.path.length - (filepathExt r.path).length))) = []
      · rw [direct_noct fs _ enc _ r freshRW hct] at h404 ⊢
        cases hfs : fs (effectiveName r.path) with
        | some body =>
          rw [rwFileServer_some fs r body hI hfs] at h404
          simp at h404
        | none =>
          rw [rwFileServer_none fs r hI hfs]
          simp [Header.get, ctK_ne_ceK]
      · cases hfs : fs r.path with
        | some body =>
          rw [direct_ct_some fs _ enc _ body r hct
            (encodingByExtension_ne_nil _ _ hE) hI hslash hfs] at h404
          simp at h404
        | none =>
          rw [direct_ct_none fs _ enc _ r hct hI hslash hfs]
          simp [Header.get, ctK_ne_ceK]
    | none =>
      unfold serveHTTP at h404 ⊢
      simp only [hI, Bool.false_eq_true, if_false, hE] at h404 ⊢
      by_cases hbr : hasToken r.acceptEncoding brTok = true
      · simp only [hbr, if_true] at h404 ⊢
        cases hfsbr : fs (effectiveName r.path ++ brExt) with
        | some body =>
          by_cases hctm : mimeByExt (filepathExt (effectiveName r.path)) = []
          · rw [tryServe_some_noct fs brExt brTok (effectiveName r.path)
              body r hfsbr hctm (indexHtml_not_suffix_br _)
              (slash_not_suffix_br _)] at h404
            simp at h404
          · rw [tryServe_some_ct fs brExt brTok (effectiveName r.path)
              body r hfsbr hctm (by decide) (indexHtml_not_suffix_br _)
              (slash_not_suffix_br _)] at h404
            simp at h404
        | none =>
          rw [tryServe_none fs brExt brTok (effectiveName r.path) r freshRW
            hfsbr (indexHtml_not_suffix_br _) (slash_not_suffix_br _)]
            at h404 ⊢
          simp only [Bool.false_eq_true, if_false] at h404 ⊢
          by_cases hgz : hasToken r.acceptEncoding gzTok = true
          · simp only [hgz, if_true] at h404 ⊢
            cases hfsgz : fs (effectiveName r.path ++ gzExt) with
            | some body =>
              by_cases hctm :
                  mimeByExt (filepathExt (effectiveName r.path)) = []
              · rw [tryServe_some_noct fs gzExt gzTok (effectiveName r.path)
                  body r hfsgz hctm (indexHtml_not_suffix_gz _)
                  (slash_not_suffix_gz _)] at h404
                simp at h404
              · rw [tryServe_some_ct fs gzExt gzTok (effectiveName r.path)
                  body r hfsgz hctm (by decide) (indexHtml_not_suffix_gz _)
                  (slash_not_suffix_gz _)] at h404
                simp at h404
            | none =>
              rw [tryServe_none fs gzExt gzTok (effectiveName r.path) r
                freshRW hfsgz (indexHtml_not_suffix_gz _)
                (slash_not_suffix_gz _)] at h404 ⊢
              simp only [Bool.false_eq_true, if_false] at h404 ⊢
              cases hfsu : fs (effectiveName r.path) with
              | some body =>
                rw [fallback_some fs r body hI hfsu] at h404
                simp at h404
              | none =>
                rw [fallback_none fs r hI hfsu]
                simp [Header.get, ctK_ne_ceK]
          · simp only [hgz, Bool.false_eq_true, if_false] at h404 ⊢
            cases hfsu : fs (effectiveName r.path) with
            | some body =>
              rw [fallback_some fs r body hI hfsu] at h404
              simp at h404
            | none =>
              rw [fallback_none fs r hI hfsu]
              simp [Header.get, ctK_ne_ceK]
      · simp only [hbr, Bool.false_eq_true, if_false] at h404 ⊢
        by_cases hgz : hasToken r.acceptEncoding gzTok = true
        · simp only [hgz, if_true] at h404 ⊢
          cases hfsgz : fs (effectiveName r.path ++ gzExt) with
          | some body =>
            by_cases hctm :
                mimeByExt (filepathExt (effectiveName r.path)) = []
            · rw [tryServe_some_noct fs gzExt gzTok (effectiveName r.path)
                body r hfsgz hctm (indexHtml_not_suffix_gz _)
                (slash_not_suffix_gz _)] at h404
              simp at h404
            · rw [tryServe_some_ct fs gzExt gzTok (effectiveName r.path)
                body r hfsgz hctm (by decide) (indexHtml_not_suffix_gz _)
                (slash_not_suffix_gz _)] at h404
              simp at h404
          | none =>
            rw [tryServe_none fs gzExt gzTok (effectiveName r.path) r
              freshRW hfsgz (indexHtml_not_suffix_gz _)
              (slash_not_suffix_gz _)] at h404 ⊢
            simp only [Bool.false_eq_true, if_false] at h404 ⊢
            cases hfsu : fs (effectiveName r.path) with
            | some body =>
              rw [fallback_some fs r body hI hfsu] at h404
              simp at h404
            | none =>
              rw [fallback_none fs r hI hfsu]
              simp [Header.get, ctK_ne_ceK]
        · simp only [hgz, Bool.false_eq_true, if_false] at h404 ⊢
          cases hfsu : fs (effectiveName r.path) with
          | some body =>
            rw [fallback_some fs r body hI hfsu] at h404
            simp at h404
          | none =>
            rw [fallback_none fs r hI hfsu]
            simp [Header.get, ctK_ne_ceK]

/-- Claim C6 witness: a negotiated miss on an empty file map yields a 404
with no `Content-Encoding`. -/
theorem notFound_no_content_encoding_witness :
    (serveHTTP fsEmpty (⟨"/x/y.html".toList, brTok, ()⟩ : Request Unit)
      freshRW).header.get ceK = [] :=
  (notFound_no_content_encoding fsEmpty
    (⟨"/x/y.html".toList, brTok, ()⟩ : Request Unit) (by decide)).1

/-- Claim C2 (amended): `Vary: Accept-Encoding` is absent on index-redirect
passthroughs and on direct compressed-file requests; on negotiated requests
it is present exactly on the responses committed with the success status
through the auto-header shim — which, for variant probes, requires the
logical filename's MIME type to resolve — and absent on negotiated
not-found responses. -/
theorem vary_header_presence {ρ : Type} (fs : Str → Option Str)
    (r : Request ρ) :
    (indexHtml.isSuffixOf r.path = true →
      (serveHTTP fs r freshRW).header.get varyK = []) ∧
    (∀ enc, indexHtml.isSuffixOf r.path = false →
      encodingByExtension (filepathExt r.path) = some enc →
      (serveHTTP fs r freshRW).header.get varyK = []) ∧
    (indexHtml.isSuffixOf r.path = false →
      encodingByExtension (filepathExt r.path) = none →
      mimeByExt (filepathExt (effectiveName r.path)) ≠ [] →
      (serveHTTP fs r freshRW).status = some 200 →
      (serveHTTP fs r freshRW).header.get varyK = [aeVal]) ∧
    (indexHtml.isSuffixOf r.path = false →
      encodingByExtension (filepathExt r.path) = none →
      (serveHTTP fs r freshRW).status = some 404 →
      (serveHTTP fs r freshRW).header.get varyK = []) ∧
    (indexHtml.isSuffixOf r.path = false →
      encodingByExtension (filepathExt r.path) = none →
      (hasToken r.acceptEncoding brTok = false ∨
        fs (effectiveName r.path ++ brExt) = none) →
      (hasToken r.acceptEncoding gzTok = false ∨
        fs (effectiveName r.path ++ gzExt) = none) →
      (serveHTTP fs r freshRW).status = some 200 →
      (serveHTTP fs r freshRW).header.get varyK = [aeVal]) := by
  refine ⟨?_, ?_, ?_, ?_, ?_⟩
  · intro hI
    rw [serveHTTP_redirect fs r hI]
    simp [Header.get, locationK_ne_varyK]
  · intro enc hI hE
    have hext : filepathExt r.path ≠ [] := by
      intro hnil
      rw [hnil] at hE
      simp [encodingByExtension, brExt, gzExt] at hE
    have hslash : slashS.isSuffixOf r.path = false :=
      slash_not_suffix_of_ext_ne_nil r.path hext
    rw [serveHTTP_direct fs r enc freshRW hI hE]
    by_cases hct : mimeByExt (filepathExt
        (r.path.take (r.path.length - (filepathExt r.path).length))) = []
    · rw [direct_noct fs _ enc _ r freshRW hct]
      cases hfs : fs (effectiveName r.path) with
      | some body =>
        rw [rwFileServer_some fs r body hI hfs]
        simp [Header.get, ctK_ne_varyK]
      | none =>
        rw [rwFileServer_none fs r hI hfs]
        simp [Header.get, ctK_ne_varyK]
    · cases hfs : fs r.path with
      | some body =>
        rw [direct_ct_some fs _ enc _ body r hct
          (encodingByExtension_ne_nil _ _ hE) hI hslash hfs]
        simp [Header.get, ctK_ne_varyK, ceK_ne_varyK]
      | none =>
        rw [direct_ct_none fs _ enc _ r hct hI hslash hfs]
        simp [Header.get, ctK_ne_varyK]
  · intro hI hE hmime h200
    unfold serveHTTP at h200 ⊢
    simp only [hI, Bool.false_eq_true, if_false, hE] at h200 ⊢
    by_cases hbr : hasToken r.acceptEncoding brTok = true
    · simp only [hbr, if_true] at h200 ⊢
      cases hfsbr : fs (effectiveName r.path ++ brExt) with
      | some body =>
        rw [tryServe_some_ct fs brExt brTok (effectiveName r.path) body r
          hfsbr hmime (by decide) (indexHtml_not_suffix_br _)
          (slash_not_suffix_br _)]
        simp [Header.get, ctK_ne_varyK, ceK_ne_varyK]
      | none =>
        rw [tryServe_none fs brExt brTok (effectiveName r.path) r freshRW
          hfsbr (indexHtml_not_suffix_br _) (slash_not_suffix_br _)]
          at h200 ⊢
        simp only [Bool.false_eq_true, if_false] at h200 ⊢
        by_cases hgz : hasToken r.acceptEncoding gzTok = true
        · simp only [hgz, if_true] at h200 ⊢
          cases hfsgz : fs (effectiveName r.path ++ gzExt) with
          | some body =>
            rw [tryServe_some_ct fs gzExt gzTok (effectiveName r.path) body
              r hfsgz hmime (by decide) (indexHtml_not_suffix_gz _)
              (slash_not_suffix_gz _)]
            simp [Header.get, ctK_ne_varyK, ceK_ne_varyK]
          | none =>
            rw [tryServe_none fs gzExt gzTok (effectiveName r.path) r
              freshRW hfsgz (indexHtml_not_suffix_gz _)
              (slash_not_suffix_gz _)] at h200 ⊢
            simp only [Bool.false_eq_true, if_false] at h200 ⊢
            cases hfsu : fs (effectiveName r.path) with
            | some body =>
              rw [fallback_some fs r body hI hfsu]
              simp [Header.get, ctK_ne_varyK]
            | none =>
              rw [fallback_none fs r hI hfsu] at h200
              simp at h200
        · simp only [hgz, Bool.false_eq_true, if_false] at h200 ⊢
          cases hfsu : fs (effectiveName r.path) with
          | some body =>
            rw [fallback_some fs r body hI hfsu]
            simp [Header.get, ctK_ne_varyK]
          | none =>
            rw [fallback_none fs r hI hfsu] at h200
            simp at h200
    · simp only [hbr, Bool.false_eq_true, if_false] at h200 ⊢
      by_cases hgz : hasToken r.acceptEncoding gzTok = true
      · simp only [hgz, if_true] at h200 ⊢
        cases hfsgz : fs (effectiveName r.path ++ gzExt) with
        | some body =>
          rw [tryServe_some_ct fs gzExt gzTok (effectiveName r.path) body r
            hfsgz hmime (by decide) (indexHtml_not_suffix_gz _)
            (slash_not_suffix_gz _)]
          simp [Header.get, ctK_ne_varyK, ceK_ne_varyK]
        | none =>
          rw [tryServe_none fs gzExt gzTok (effectiveName r.path) r freshRW
            hfsgz (indexHtml_not_suffix_gz _) (slash_not_suffix_gz _)]
            at h200 ⊢
          simp only [Bool.false_eq_true, if_false] at h200 ⊢
          cases hfsu : fs (effectiveName r.path) with
          | some body =>
            rw [fallback_some fs r body hI hfsu]
            simp [Header.get, ctK_ne_varyK]
          | none =>
            rw [fallback_none fs r hI hfsu] at h200
            simp at h200
      · simp only [hgz, Bool.false_eq_true, if_false] at h200 ⊢
        cases hfsu : fs (effectiveName r.path) with
        | some body =>
          rw [fallback_some fs r body hI hfsu]
          simp [Header.get, ctK_ne_varyK]
        | none =>
          rw [fallback_none fs r hI hfsu] at h200
          simp at h200
  · intro hI hE h404
    unfold serveHTTP at h404 ⊢
    simp only [hI, Bool.false_eq_true, if_false, hE] at h404 ⊢
    by_cases hbr : hasToken r.acceptEncoding brTok = true
    · simp only [hbr, if_true] at h404 ⊢
      cases hfsbr : fs (effectiveName r.path ++ brExt) with
      | some body =>
        by_cases hctm : mimeByExt (filepathExt (effectiveName r.path)) = []
        · rw [tryServe_some_noct fs brExt brTok (effectiveName r.path) body
            r hfsbr hctm (indexHtml_not_suffix_br _)
            (slash_not_suffix_br _)] at h404
          simp at h404
        · rw [tryServe_some_ct fs brExt brTok (effectiveName r.path) body r
            hfsbr hctm (by decide) (indexHtml_not_suffix_br _)
            (slash_not_suffix_br _)] at h404
          simp at h404
      | none =>
        rw [tryServe_none fs brExt brTok (effectiveName r.path) r freshRW
          hfsbr (indexHtml_not_suffix_br _) (slash_not_suffix_br _)]
          at h404 ⊢
        simp only [Bool.false_eq_true, if_false] at h404 ⊢
        by_cases hgz : hasToken r.acceptEncoding gzTok = true
        · simp only [hgz, if_true] at h404 ⊢
          cases hfsgz : fs (effectiveName r.path ++ gzExt) with
          | some body =>
            by_cases hctm :
                mimeByExt (filepathExt (effectiveName r.path)) = []
            · rw [tryServe_some_noct fs gzExt gzTok (effectiveName r.path)
                body r hfsgz hctm (indexHtml_not_suffix_gz _)
                (slash_not_suffix_gz _)] at h404
              simp at h404
            · rw [tryServe_some_ct fs gzExt gzTok (effectiveName r.path)
                body r hfsgz hctm (by decide) (indexHtml_not_suffix_gz _)
                (slash_not_suffix_gz _)] at h404
              simp at h404
          | none =>
            rw [tryServe_none fs gzExt gzTok (effectiveName r.path) r
              freshRW hfsgz (indexHtml_not_suffix_gz _)
              (slash_not_suffix_gz _)] at h404 ⊢
            simp only [Bool.false_eq_true, if_false] at h404 ⊢
            cases hfsu : fs (effectiveName r.path) with
            | some body =>
              rw [fallback_some fs r body hI hfsu] at h404
              simp at h404
            | none =>
              rw [fallback_none fs r hI hfsu]
              simp [Header.get, ctK_ne_varyK]
        · simp only [hgz, Bool.false_eq_true, if_false] at h404 ⊢
          cases hfsu : fs (effectiveName r.path) with
          | some body =>
            rw [fallback_some fs r body hI hfsu] at h404
            simp at h404
          | none =>
            rw [fallback_none fs r hI hfsu]
            simp [Header.get, ctK_ne_varyK]
    · simp only [hbr, Bool.false_eq_true, if_false] at h404 ⊢
      by_cases hgz : hasToken r.acceptEncoding gzTok = true
      · simp only [hgz, if_true] at h404 ⊢
        cases hfsgz : fs (effectiveName r.path ++ gzExt) with
        | some body =>
          by_cases hctm : mimeByExt (filepathExt (effectiveName r.path)) = []
          · rw [tryServe_some_noct fs gzExt gzTok (effectiveName r.path)
              body r hfsgz hctm (indexHtml_not_suffix_gz _)
              (slash_not_suffix_gz _)] at h404
            simp at h404
          · rw [tryServe_some_ct fs gzExt gzTok (effectiveName r.path) body
              r hfsgz hctm (by decide) (indexHtml_not_suffix_gz _)
              (slash_not_suffix_gz _)] at h404
            simp at h404
        | none =>
          rw [tryServe_none fs gzExt gzTok (effectiveName r.path) r freshRW
            hfsgz (indexHtml_not_suffix_gz _) (slash_not_suffix_gz _)]
            at h404 ⊢
          simp only [Bool.false_eq_true, if_false] at h404 ⊢
          cases hfsu : fs (effectiveName r.path) with
          | some body =>
            rw [fallback_some fs r body hI hfsu] at h404
            simp at h404
          | none =>
            rw [fallback_none fs r hI hfsu]
            simp [Header.get, ctK_ne_varyK]
      · simp only [hgz, Bool.false_eq_true, if_false] at h404 ⊢
        cases hfsu : fs (effectiveName r.path) with
        | some body =>
          rw [fallback_some fs r body hI hfsu] at h404
          simp at h404
        | none =>
          rw [fallback_none fs r hI hfsu]
          simp [Header.get, ctK_ne_varyK]
  · intro hI hE hnob hnog h200
    unfold serveHTTP at h200 ⊢
    simp only [hI, Bool.false_eq_true, if_false, hE] at h200 ⊢
    by_cases hbr : hasToken r.acceptEncoding brTok = true
    · have hfsbr : fs (effectiveName r.path ++ brExt) = none := by
        cases hnob with
        | inl h => rw [hbr] at h; cases h
        | inr h => exact h
      simp only [hbr, if_true] at h200 ⊢
      rw [tryServe_none fs brExt brTok (effectiveName r.path) r freshRW
        hfsbr (indexHtml_not_suffix_br _) (slash_not_suffix_br _)]
        at h200 ⊢
      simp only [Bool.false_eq_true, if_false] at h200 ⊢
      by_cases hgz : hasToken r.acceptEncoding gzTok = true
      · have hfsgz : fs (effectiveName r.path ++ gzExt) = none := by
          cases hnog with
          | inl h => rw [hgz] at h; cases h
          | inr h => exact h
        simp only [hgz, if_true] at h200 ⊢
        rw [tryServe_none fs gzExt gzTok (effectiveName r.path) r freshRW
          hfsgz (indexHtml_not_suffix_gz _) (slash_not_suffix_gz _)]
          at h200 ⊢
        simp only [Bool.false_eq_true, if_false] at h200 ⊢
        cases hfsu : fs (effectiveName r.path) with
        | some body =>
          rw [fallback_some fs r body hI hfsu]
          simp [Header.get, ctK_ne_varyK]
        | none =>
          rw [fallback_none fs r hI hfsu] at h200
          simp at h200
      · simp only [hgz, Bool.false_eq_true, if_false] at h200 ⊢
        cases hfsu : fs (effectiveName r.path) with
        | some body =>
          rw [fallback_some fs r body hI hfsu]
          simp [Header.get, ctK_ne_varyK]
        | none =>
          rw [fallback_none fs r hI hfsu] at h200
          simp at h200
    · simp only [hbr, Bool.false_eq_true, if_false] at h200 ⊢
      by_cases hgz : hasToken r.acceptEncoding gzTok = true
      · have hfsgz : fs (effectiveName r.path ++ gzExt) = none := by
          cases hnog with
          | inl h => rw [hgz] at h; cases h
          | inr h => exact h
        simp only [hgz, if_true] at h200 ⊢
        rw [tryServe_none fs gzExt gzTok (effectiveName r.path) r freshRW
          hfsgz (indexHtml_not_suffix_gz _) (slash_not_suffix_gz _)]
          at h200 ⊢
        simp only [Bool.false_eq_true, if_false] at h200 ⊢
        cases hfsu : fs (effectiveName r.path) with
        | some body =>
          rw [fallback_some fs r body hI hfsu]
          simp [Header.get, ctK_ne_varyK]
        | none =>
          rw [fallback_none fs r hI hfsu] at h200
          simp at h200
      · simp only [hgz, Bool.false_eq_true, if_false] at h200 ⊢
        cases hfsu : fs (effectiveName r.path) with
        | some body =>
          rw [fallback_some fs r body hI hfsu]
          simp [Header.get, ctK_ne_varyK]
        | none =>
          rw [fallback_none fs r hI hfsu] at h200
          simp at h200

/-- Claim C2 witness: two uncompressed negotiated fallbacks carrying the
Vary header — one with a registered MIME type, one (via the dedicated
fallback conjunct) whose logical filename has none — at concrete inputs
discharging every hypothesis. -/
theorem vary_header_presence_witness :
    (serveHTTP fsHtml (⟨"/d/foo.html".toList, [], ()⟩ : Request Unit)
      freshRW).header.get varyK = [aeVal] ∧
    (serveHTTP fsXyz (⟨"/d.xyz".toList, [], ()⟩ : Request Unit)
      freshRW).header.get varyK = [aeVal] :=
  ⟨(vary_header_presence fsHtml
      (⟨"/d/foo.html".toList, [], ()⟩ : Request Unit)).2.2.1
      (by decide) (by decide) (by decide) (by decide),
    (vary_header_presence fsXyz
      (⟨"/d.xyz".toList, [], ()⟩ : Request Unit)).2.2.2.2
      (by decide) (by decide) (Or.inl (by decide)) (Or.inl (by decide))
      (by decide)⟩

/-- Claim C2 counterexample: two negotiated responses without `Vary` — a
negotiated not-found, and a served Brotli variant whose logical filename
has no registered MIME type. -/
theorem vary_header_counterexample :
    encodingByExtension (filepathExt "/nope.html".toList) = none ∧
    (serveHTTP fsEmpty (⟨"/nope.html".toList, [], ()⟩ : Request Unit)
      freshRW).status = some 404 ∧
    (serveHTTP fsEmpty (⟨"/nope.html".toList, [], ()⟩ : Request Unit)
      freshRW).header.get varyK = [] ∧
    (serveHTTP fsXyz (⟨"/d.xyz".toList, "br,gzip".toList, ()⟩ : Request Unit)
      freshRW).status = some 200 ∧
    (serveHTTP fsXyz (⟨"/d.xyz".toList, "br,gzip".toList, ()⟩ : Request Unit)
      freshRW).body = "BRX".toList ∧
    (serveHTTP fsXyz (⟨"/d.xyz".toList, "br,gzip".toList, ()⟩ : Request Unit)
      freshRW).header.get varyK = [] := by
  decide

/-- Claim C5 (amended): on a negotiated request whose logical filename has
a registered MIME type, when both variants exist and `Accept-Encoding` has
both tokens, the Brotli variant is served: status 200, body the stored
`.br` bytes, `Content-Encoding: br`; without a registered MIME type the
Brotli bytes are still preferred and served, but with no Content-Encoding
header. -/
theorem brotli_preferred {ρ : Type} (fs : Str → Option Str) (r : Request ρ)
    (brBody gzBody : Str)
    (hI : indexHtml.isSuffixOf r.path = false)
    (hE : encodingByExtension (filepathExt r.path) = none)
    (hbr : hasToken r.acceptEncoding brTok = true)
    (hgz : hasToken r.acceptEncoding gzTok = true)
    (hfsbr : fs (effectiveName r.path ++ brExt) = some brBody)
    (hfsgz : fs (effectiveName r.path ++ gzExt) = some gzBody)
    (hmime : mimeByExt (filepathExt (effectiveName r.path)) ≠ []) :
    (serveHTTP fs r freshRW).body = brBody ∧
    (serveHTTP fs r freshRW).header.get ceK = [brTok] ∧
    (serveHTTP fs r freshRW).status = some 200 := by
  unfold serveHTTP
  simp only [hI, Bool.false_eq_true, if_false, hE, hbr, if_true]
  rw [tryServe_some_ct fs brExt brTok (effectiveName r.path) brBody r hfsbr
    hmime (by decide) (indexHtml_not_suffix_br _) (slash_not_suffix_br _)]
  simp [Header.get, ctK_ne_ceK]

/-- Claim C5 witness: the Brotli variant of an `.html` resource with both
variants stored wins under `Accept-Encoding: br,gzip`. -/
theorem brotli_preferred_witness :
    (serveHTTP fsHtml
      (⟨"/d/foo.html".toList, "br,gzip".toList, ()⟩ : Request Unit)
      freshRW).body = "brb".toList ∧
    (serveHTTP fsHtml
      (⟨"/d/foo.html".toList, "br,gzip".toList, ()⟩ : Request Unit)
      freshRW).header.get ceK = [brTok] ∧
    (serveHTTP fsHtml
      (⟨"/d/foo.html".toList, "br,gzip".toList, ()⟩ : Request Unit)
      freshRW).status = some 200 :=
  brotli_preferred fsHtml
    (⟨"/d/foo.html".toList, "br,gzip".toList, ()⟩ : Request Unit)
    "brb".toList "gzb".toList (by decide) (by decide) (by decide)
    (by decide) (by decide) (by decide) (by decide)

/-- Claim C5 counterexample: with an unregistered extension (`.xyz`),
every premise of the claim holds — negotiated path, both variants exist,
both tokens accepted — and the Brotli bytes are served, yet the response
carries no `Content-Encoding` header. -/
theorem brotli_preferred_counterexample :
    hasToken "br,gzip".toList brTok = true ∧
    hasToken "br,gzip".toList gzTok = true ∧
    encodingByExtension (filepathExt "/d.xyz".toList) = none ∧
    fsXyz "/d.xyz.br".toList = some "BRX".toList ∧
    fsXyz "/d.xyz.gz".toList = some "GZX".toList ∧
    (serveHTTP fsXyz (⟨"/d.xyz".toList, "br,gzip".toList, ()⟩ : Request Unit)
      freshRW).body = "BRX".toList ∧
    (serveHTTP fsXyz (⟨"/d.xyz".toList, "br,gzip".toList, ()⟩ : Request Unit)
      freshRW).header.get ceK = [] := by
  decide

end Encneg
